import Mathlib

/-!
Verification of the core detection-and-resolution pipeline of the
`ome-tv-ip-geolocator` userscript (`src/enhanced_ip_geolocator.user.js`).

The script is single-threaded and event-driven.  We embed the pure data
transformations directly; the stateful methods of `GeolocationService` and
the `WebRTCDetector` become explicit state-passing functions.  JavaScript
strings become `String`, the `null`/`undefined` cases become `Option`,
exceptions caught inside the source become total functions whose "caught"
branches are explicit.
-/

/-! ## StateStore (`getStoredValue` / `setStoredValue`, lines 36-65)

The GM storage backend is modelled by a `Backend`: whether the GM functions
are defined (`available`, the `typeof GM_getValue === 'function'` check),
whether calling them throws (`raises`, the `try/catch` in both functions),
and the key/value table itself (`store`, where `none` plays the role of
`undefined`, i.e. "no value stored under this key"). -/

structure Backend (V : Type) where
  available : Bool
  raises : Bool
  store : String → Option V

/-- Embedding of `getStoredValue(key, defaultValue)` (lines 36-49):
if `GM_getValue` is defined, call it; a thrown error is caught and yields
the default; a stored value that is not `undefined` is returned, otherwise
the default. -/
def getStoredValue {V : Type} (b : Backend V) (key : String) (defaultValue : V) : V :=
  if b.available then
    if b.raises then defaultValue
    else
      match b.store key with
      | some v => v
      | none => defaultValue
  else defaultValue

/-- Embedding of `setStoredValue(key, value)` (lines 56-65): if `GM_setValue`
is defined, call it; a thrown error is caught, leaving the store unchanged. -/
def setStoredValue {V : Type} (b : Backend V) (key : String) (value : V) : Backend V :=
  if b.available then
    if b.raises then b
    else { b with store := fun k => if k = key then some value else b.store k }
  else b

/-! ## HistoryLedger data model (`GeolocationService`, lines 83-188) -/

/-- The `data` object built in `getGeolocation` (lines 118-127): eight display
fields, all strings. -/
structure GeoData where
  ipAddress : String
  country : String
  region : String
  city : String
  location : String
  isp : String
  hostname : String
  vpnProxy : String
deriving DecidableEq, Repr

/-- One element of `this.ipHistory`: the object `{ ip, data, timestamp }`
pushed in `updateHistory` (line 160). -/
structure HistoryEntry where
  ip : String
  data : GeoData
  timestamp : String
deriving DecidableEq, Repr

/-- The ledger state owned by `GeolocationService`: `this.ipHistory` and
`this.lastReportedIP` (lines 87-88; `null` initial value becomes `none`). -/
structure GeoState where
  ipHistory : List HistoryEntry
  lastReportedIP : Option String
deriving DecidableEq, Repr

/-- `findIndex` + `splice(existingIndex, 1)` of lines 150-155: remove the
first entry whose `ip` equals the given address, returning it together with
the remaining list (order preserved).  `none` when no entry matches
(`existingIndex === -1`). -/
def extractEntry (ip : String) : List HistoryEntry → Option (HistoryEntry × List HistoryEntry)
  | [] => none
  | e :: es =>
    if e.ip = ip then some (e, es)
    else
      match extractEntry ip es with
      | some (x, r) => some (x, e :: r)
      | none => none

/-- The trim step of lines 164-166: `if (this.ipHistory.length > CONFIG.MAX_IP_HISTORY)
this.ipHistory.pop()` with `MAX_IP_HISTORY = 5` — drop the last element when
the length exceeds 5. -/
def trimHistory (l : List HistoryEntry) : List HistoryEntry :=
  if 5 < l.length then l.dropLast else l

/-- Embedding of `updateHistory(ip, data)` (lines 149-171).  The wall-clock
timestamp (`new Date().toLocaleString()`) is passed in explicitly.  If the
address is already present its entry is spliced out, its `timestamp` field —
and only that field — is overwritten, and it is unshifted onto the front;
otherwise a fresh `{ ip, data, timestamp }` entry is unshifted.  Then the
history is trimmed and `this.lastReportedIP = ip` (line 169).  (The
`setStoredValue` persistence calls on lines 168 and 170 write the resulting
history and address to the backend; they do not affect the in-memory state
modelled here.) -/
def updateHistory (ip : String) (data : GeoData) (timestamp : String) (st : GeoState) : GeoState :=
  match extractEntry ip st.ipHistory with
  | some (item, rest) =>
    { ipHistory := trimHistory ({ item with timestamp := timestamp } :: rest)
      lastReportedIP := some ip }
  | none =>
    { ipHistory := trimHistory ({ ip := ip, data := data, timestamp := timestamp } :: st.ipHistory)
      lastReportedIP := some ip }

/-! ## Basic facts about `extractEntry` and `trimHistory` -/

theorem extractEntry_some {ip : String} :
    ∀ {h : List HistoryEntry} {x : HistoryEntry} {r : List HistoryEntry},
      extractEntry ip h = some (x, r) →
      x.ip = ip ∧ ∃ p s, h = p ++ x :: s ∧ r = p ++ s ∧ ∀ e ∈ p, e.ip ≠ ip := by
  intro h
  induction h with
  | nil => intro x r hx; simp [extractEntry] at hx
  | cons e es ih =>
    intro x r hx
    by_cases hcase : e.ip = ip
    · simp only [extractEntry, if_pos hcase, Option.some.injEq, Prod.mk.injEq] at hx
      obtain ⟨hx1, hx2⟩ := hx
      subst hx1; subst hx2
      exact ⟨hcase, [], es, rfl, rfl, by simp⟩
    · simp only [extractEntry, if_neg hcase] at hx
      cases hes : extractEntry ip es with
      | none => rw [hes] at hx; simp at hx
      | some pr =>
        obtain ⟨x2, r2⟩ := pr
        rw [hes] at hx
        simp only [Option.some.injEq, Prod.mk.injEq] at hx
        obtain ⟨hx1, hx2⟩ := hx
        subst hx1
        obtain ⟨hip, p, s, hdec, hrdec, hnone⟩ := ih hes
        subst hdec; subst hrdec; subst hx2
        refine ⟨hip, e :: p, s, rfl, rfl, ?_⟩
        intro e2 he2
        rcases List.mem_cons.mp he2 with h1 | h1
        · subst h1; exact hcase
        · exact hnone e2 h1

theorem extractEntry_none {ip : String} :
    ∀ {h : List HistoryEntry}, extractEntry ip h = none → ∀ e ∈ h, e.ip ≠ ip := by
  intro h
  induction h with
  | nil => intro _ e he; simp at he
  | cons e es ih =>
    intro hx e2 he2
    by_cases hcase : e.ip = ip
    · simp [extractEntry, if_pos hcase] at hx
    · simp only [extractEntry, if_neg hcase] at hx
      cases hes : extractEntry ip es with
      | none =>
        rcases List.mem_cons.mp he2 with h1 | h1
        · subst h1; exact hcase
        · exact ih hes e2 h1
      | some pr => obtain ⟨x2, r2⟩ := pr; rw [hes] at hx; simp at hx

theorem trimHistory_head {x : HistoryEntry} {xs : List HistoryEntry} :
    (trimHistory (x :: xs)).head? = some x := by
  unfold trimHistory
  by_cases hl : 5 < (x :: xs).length
  · rw [if_pos hl]
    cases xs with
    | nil => simp at hl
    | cons y ys => simp [List.dropLast]
  · rw [if_neg hl]; rfl

theorem trimHistory_length_le {l : List HistoryEntry} (h : l.length ≤ 6) :
    (trimHistory l).length ≤ 5 := by
  unfold trimHistory
  by_cases hl : 5 < l.length
  · rw [if_pos hl]; simp [List.length_dropLast]; omega
  · rw [if_neg hl]; omega

theorem trimHistory_nodup {l : List HistoryEntry}
    (h : (l.map (fun e => e.ip)).Nodup) : ((trimHistory l).map (fun e => e.ip)).Nodup := by
  unfold trimHistory
  by_cases hl : 5 < l.length
  · rw [if_pos hl]
    exact ((l.dropLast_sublist).map (fun e => e.ip)).nodup h
  · rw [if_neg hl]; exact h

theorem trimHistory_of_le {l : List HistoryEntry} (h : l.length ≤ 5) :
    trimHistory l = l := by
  unfold trimHistory
  rw [if_neg (by omega)]

/-! ## MetadataResolver (`getGeolocation`, lines 96-142)

The outbound HTTP request is modelled by its observable outcome: the
`onerror` callback fired (`transportError`), `JSON.parse` threw
(`malformed`), or a JSON body was parsed (`parsed`).  The promise never
rejects — every branch calls `resolve(...)` — so the embedding is a total
function returning the resolved value together with the (possibly updated)
ledger state. -/

/-- The optional fields of the parsed ipinfo.io JSON body (line 111):
`none` models an absent (or `undefined`) field; `bogon` is used by the
source only for truthiness; `error` carries `error.message` when the
response has an explicit error field. -/
structure IpinfoJson where
  ip : Option String
  country : Option String
  region : Option String
  city : Option String
  loc : Option String
  org : Option String
  hostname : Option String
  bogon : Bool
  error : Option String
deriving DecidableEq, Repr

/-- Outcome of the `GM_xmlhttpRequest` call inside `getGeolocation`. -/
inductive LookupOutcome where
  | transportError
  | malformed
  | parsed (json : IpinfoJson)
deriving DecidableEq, Repr

/-- JavaScript `x || 'N/A'` on an optional string field: an absent field or
an empty (falsy) string becomes the `'N/A'` sentinel. -/
def orNA (o : Option String) : String :=
  match o with
  | some s => if s = "" then "N/A" else s
  | none => "N/A"

/-- The `data` object built on success (lines 118-127).  `regionName` stands
for `this.regionNames.of` (the `Intl.DisplayNames` country-code expansion,
an external collaborator passed in as a function). -/
def buildGeoData (regionName : String → String) (json : IpinfoJson) : GeoData :=
  { ipAddress := orNA json.ip
    country := match json.country with
      | some c => if c = "" then "N/A" else regionName c
      | none => "N/A"
    region := orNA json.region
    city := orNA json.city
    location := orNA json.loc
    isp := orNA json.org
    hostname := orNA json.hostname
    vpnProxy := if json.bogon then "Yes (Bogon)" else "No" }

/-- Embedding of `getGeolocation(ip)` (lines 96-142).  `gmAvailable` is the
`typeof GM_xmlhttpRequest === 'function'` check (line 100); `timestamp` is
the clock value `updateHistory` would read.  Returns the value the promise
resolves with, paired with the ledger state after the call:
* `!ip` (empty string) → `null`, state untouched (line 97);
* `GM_xmlhttpRequest` missing → `null`, state untouched (lines 100-103);
* transport error (`onerror`) → `null`, state untouched (lines 136-139);
* `JSON.parse` throws → `null`, state untouched (lines 131-134);
* parsed body with an `error` field → `null`, state untouched (lines 112-116);
* otherwise build the data object, call `updateHistory`, resolve the data
  (lines 118-130). -/
def getGeolocation (regionName : String → String) (gmAvailable : Bool) (timestamp : String)
    (ip : String) (outcome : LookupOutcome) (st : GeoState) : Option GeoData × GeoState :=
  if ip = "" then (none, st)
  else if !gmAvailable then (none, st)
  else
    match outcome with
    | .transportError => (none, st)
    | .malformed => (none, st)
    | .parsed json =>
      if json.error.isSome then (none, st)
      else
        let data := buildGeoData regionName json
        (some data, updateHistory ip data timestamp st)

/-! ## NoveltyFilter and the `addIceCandidate` hook (lines 493-555)

The `WebRTCDetector` keeps `this.detectedIps`, a session-scoped `Set` of
addresses (line 498), modelled as a list with membership.  The admission
test inside the hook (line 529) is
`ip !== self.geoService.getLastReportedIP() && !self.detectedIps.has(ip)`,
and on admission the address is added to the set (line 533) before the
asynchronous `getGeolocation` call is fired. -/

/-- Detector session state: the session novelty `Set` plus the ledger owned
by the `GeolocationService` the detector points at. -/
structure SessionState where
  detectedIps : List String
  geo : GeoState
deriving DecidableEq, Repr

/-- The NoveltyFilter step of lines 529-534 (the `admit` operation of the
spec): the address is accepted iff it differs from `getLastReportedIP()` and
is not in the session set; on acceptance it is added to the session set.
(The subsequent asynchronous resolution of lines 537-539 is modelled
separately by `getGeolocation`.) -/
def acceptCandidate (ip : String) (ss : SessionState) : Bool × SessionState :=
  if ss.geo.lastReportedIP ≠ some ip ∧ ip ∉ ss.detectedIps then
    (true, { ss with detectedIps := ip :: ss.detectedIps })
  else (false, ss)

/-- Embedding of the patched `addIceCandidate` (lines 517-551).  The
detection body — everything inside the `try` block, lines 519-541 — is an
arbitrary state transformer `detect` that may also raise (`σ × Option ε`:
the state after its side effects, and `some e` when it threw).  The `catch`
on lines 542-545 only logs, so a raised error is dropped and the state as
mutated so far is kept.  Line 547 then unconditionally runs
`return origAdd.call(this, ice, ...rest)`.  The third component records the
invocations of `origAdd` performed by one call of the hook (argument
passed), so that "called exactly once with the original argument" is
expressible. -/
def hookedAddIceCandidate {ι σ ε ρ : Type} (detect : ι → σ → σ × Option ε)
    (origAdd : ι → ρ) (ice : ι) (s : σ) : ρ × σ × List ι :=
  let s2 := (detect ice s).1
  (origAdd ice, s2, [ice])

/-! ## Concrete metadata values used by the scenario theorems -/

/-- Sample metadata value (distinct from `exData2`). -/
def exData1 : GeoData :=
  { ipAddress := "203.0.113.7", country := "Germany", region := "BE", city := "Berlin"
    location := "52.5,13.4", isp := "ISP One", hostname := "host.one", vpnProxy := "No" }

/-- A second sample metadata value, differing from `exData1`. -/
def exData2 : GeoData :=
  { ipAddress := "203.0.113.7", country := "France", region := "IDF", city := "Paris"
    location := "48.8,2.3", isp := "ISP Two", hostname := "host.two", vpnProxy := "No" }

/-- Claim C1, counterexample: recording an address that is already in the
ledger with *new* metadata keeps the *old* metadata — `updateHistory` only
overwrites the `timestamp` field of the existing entry (line 156), never its
`data` field.  After `record("203.0.113.7", exData1)` then
`record("203.0.113.7", exData2)` the single entry still carries `exData1`,
although `exData2 ≠ exData1` was the newly supplied metadata, refuting
"refreshes both its timestamp and its metadata to the newly supplied
values". -/
theorem claim_C1_counterexample :
    (updateHistory "203.0.113.7" exData2 "t2"
        (updateHistory "203.0.113.7" exData1 "t1" ⟨[], none⟩)).ipHistory =
      [{ ip := "203.0.113.7", data := exData1, timestamp := "t2" }] ∧
    exData1 ≠ exData2 := by
  constructor
  · decide
  · decide

/-- Claim C1, amended: for an address already present in the ledger,
`record(address, metadata)` removes the existing entry, refreshes its
timestamp — while the entry keeps its previously stored metadata, the newly
supplied metadata being ignored — and reinserts it at position 0; after
`record(A)`, `record(B)`, `record(A)` the ledger has exactly the 2 entries
`[A, B]` with `A`'s timestamp updated. -/
theorem claim_C1_amended (ip : String) (d : GeoData) (ts : String) (st : GeoState)
    (item : HistoryEntry) (rest : List HistoryEntry)
    (hfound : extractEntry ip st.ipHistory = some (item, rest))
    (hlen : st.ipHistory.length ≤ 5) :
    (updateHistory ip d ts st).ipHistory = { item with timestamp := ts } :: rest ∧
    (updateHistory ip d ts st).lastReportedIP = some ip ∧
    item.ip = ip ∧
    (updateHistory "198.51.100.1" exData1 "t3"
        (updateHistory "198.51.100.2" exData2 "t2"
          (updateHistory "198.51.100.1" exData1 "t1" ⟨[], none⟩))).ipHistory =
      [{ ip := "198.51.100.1", data := exData1, timestamp := "t3" },
       { ip := "198.51.100.2", data := exData2, timestamp := "t2" }] := by
  obtain ⟨hip, p, s, hdec, hrdec, -⟩ := extractEntry_some hfound
  have hlen2 : ({ item with timestamp := ts } :: rest).length ≤ 5 := by
    rw [hrdec]
    rw [hdec] at hlen
    simp at hlen ⊢
    omega
  refine ⟨?_, ?_, hip, by decide⟩
  · unfold updateHistory
    rw [hfound]
    simp [trimHistory_of_le hlen2]
  · unfold updateHistory
    rw [hfound]

/-- Witness for `claim_C1_amended` at a concrete ledger containing the
recorded address. -/
theorem claim_C1_amended_witness :
    (updateHistory "1.1.1.1" exData2 "t9"
        ⟨[{ ip := "1.1.1.1", data := exData1, timestamp := "t0" }], none⟩).ipHistory =
      [{ ip := "1.1.1.1", data := exData1, timestamp := "t9" }] ∧
    (updateHistory "1.1.1.1" exData2 "t9"
        ⟨[{ ip := "1.1.1.1", data := exData1, timestamp := "t0" }], none⟩).lastReportedIP =
      some "1.1.1.1" ∧
    ({ ip := "1.1.1.1", data := exData1, timestamp := "t0" } : HistoryEntry).ip = "1.1.1.1" ∧
    (updateHistory "198.51.100.1" exData1 "t3"
        (updateHistory "198.51.100.2" exData2 "t2"
          (updateHistory "198.51.100.1" exData1 "t1" ⟨[], none⟩))).ipHistory =
      [{ ip := "198.51.100.1", data := exData1, timestamp := "t3" },
       { ip := "198.51.100.2", data := exData2, timestamp := "t2" }] :=
  claim_C1_amended "1.1.1.1" exData2 "t9"
    ⟨[{ ip := "1.1.1.1", data := exData1, timestamp := "t0" }], none⟩
    { ip := "1.1.1.1", data := exData1, timestamp := "t0" } []
    (by decide) (by decide)

/-! ## Claim C3: the ledger invariant -/

/-- The HistoryLedger invariant of the spec: at most 5 entries and no two
entries share an address. -/
def ledgerInvariant (h : List HistoryEntry) : Prop :=
  h.length ≤ 5 ∧ (h.map (fun e => e.ip)).Nodup

/-- Claim C3: provided the ledger satisfied its invariant before the call
(as it does inductively from the empty initial ledger), after every
`record` call the ledger again has length at most 5 and pairwise distinct
addresses, and the most recently recorded address sits at position 0. -/
theorem claim_C3 (ip : String) (d : GeoData) (ts : String) (st : GeoState)
    (hinv : ledgerInvariant st.ipHistory) :
    ledgerInvariant (updateHistory ip d ts st).ipHistory ∧
    ((updateHistory ip d ts st).ipHistory.head?.map (fun e => e.ip)) = some ip := by
  obtain ⟨hlen, hnodup⟩ := hinv
  unfold updateHistory
  cases hx : extractEntry ip st.ipHistory with
  | some pr =>
    obtain ⟨item, rest⟩ := pr
    obtain ⟨hip, p, s, hdec, hrdec, -⟩ := extractEntry_some hx
    rw [hdec] at hlen hnodup
    dsimp only
    rw [hrdec]
    refine ⟨⟨?_, ?_⟩, ?_⟩
    · apply trimHistory_length_le
      simp at hlen ⊢
      omega
    · apply trimHistory_nodup
      simp only [List.map_cons, List.map_append] at hnodup ⊢
      exact List.nodup_middle.mp hnodup
    · rw [trimHistory_head]
      simp [hip]
  | none =>
    have hnotin : ip ∉ st.ipHistory.map (fun e => e.ip) := by
      intro hmem
      obtain ⟨e, he, heq⟩ := List.mem_map.mp hmem
      exact extractEntry_none hx e he heq
    dsimp only
    refine ⟨⟨?_, ?_⟩, ?_⟩
    · apply trimHistory_length_le
      simp
      omega
    · apply trimHistory_nodup
      simp only [List.map_cons]
      exact List.nodup_cons.mpr ⟨hnotin, hnodup⟩
    · rw [trimHistory_head]
      simp

/-- Witness for `claim_C3` at a concrete one-entry ledger. -/
theorem claim_C3_witness :
    ledgerInvariant (updateHistory "9.9.9.9" exData1 "t1"
        ⟨[{ ip := "8.8.8.8", data := exData2, timestamp := "t0" }], some "8.8.8.8"⟩).ipHistory ∧
    ((updateHistory "9.9.9.9" exData1 "t1"
        ⟨[{ ip := "8.8.8.8", data := exData2, timestamp := "t0" }], some "8.8.8.8"⟩).ipHistory.head?.map
      (fun e => e.ip)) = some "9.9.9.9" :=
  claim_C3 "9.9.9.9" exData1 "t1"
    ⟨[{ ip := "8.8.8.8", data := exData2, timestamp := "t0" }], some "8.8.8.8"⟩
    ⟨by decide, by decide⟩

/-! ## Claim C5: insertion of a new address and LRU-style eviction -/

/-- Claim C5: for an address not already present, `record` inserts a fresh
entry at position 0; when the ledger already held 5 entries the tail
(least-recently-promoted) entry is evicted, otherwise the old entries are
kept unchanged.  Calling `record` six times with six distinct addresses
from the empty ledger leaves exactly the last five, most-recent-first — the
first address has been evicted. -/
theorem claim_C5 (ip : String) (d : GeoData) (ts : String) (st : GeoState)
    (hnew : extractEntry ip st.ipHistory = none)
    (hlen : st.ipHistory.length ≤ 5) :
    (updateHistory ip d ts st).ipHistory =
      { ip := ip, data := d, timestamp := ts } ::
        (if st.ipHistory.length = 5 then st.ipHistory.dropLast else st.ipHistory) ∧
    (updateHistory "10.0.0.6" exData1 "t6"
        (updateHistory "10.0.0.5" exData1 "t5"
          (updateHistory "10.0.0.4" exData1 "t4"
            (updateHistory "10.0.0.3" exData1 "t3"
              (updateHistory "10.0.0.2" exData1 "t2"
                (updateHistory "10.0.0.1" exData1 "t1" ⟨[], none⟩)))))).ipHistory =
      [{ ip := "10.0.0.6", data := exData1, timestamp := "t6" },
       { ip := "10.0.0.5", data := exData1, timestamp := "t5" },
       { ip := "10.0.0.4", data := exData1, timestamp := "t4" },
       { ip := "10.0.0.3", data := exData1, timestamp := "t3" },
       { ip := "10.0.0.2", data := exData1, timestamp := "t2" }] := by
  refine ⟨?_, by decide⟩
  unfold updateHistory
  rw [hnew]
  dsimp only
  by_cases h5 : st.ipHistory.length = 5
  · rw [if_pos h5]
    unfold trimHistory
    rw [if_pos (by simp; omega)]
    cases hh : st.ipHistory with
    | nil => rw [hh] at h5; simp at h5
    | cons y ys => simp [List.dropLast]
  · rw [if_neg h5]
    exact trimHistory_of_le (by simp; omega)

/-- Witness for `claim_C5`: recording a sixth distinct address into a full
five-entry ledger. -/
theorem claim_C5_witness :
    (updateHistory "10.1.0.6" exData1 "t6"
        ⟨[{ ip := "10.1.0.5", data := exData1, timestamp := "t5" },
          { ip := "10.1.0.4", data := exData1, timestamp := "t4" },
          { ip := "10.1.0.3", data := exData1, timestamp := "t3" },
          { ip := "10.1.0.2", data := exData1, timestamp := "t2" },
          { ip := "10.1.0.1", data := exData1, timestamp := "t1" }], some "10.1.0.5"⟩).ipHistory =
      { ip := "10.1.0.6", data := exData1, timestamp := "t6" } ::
        (if ([{ ip := "10.1.0.5", data := exData1, timestamp := "t5" },
              { ip := "10.1.0.4", data := exData1, timestamp := "t4" },
              { ip := "10.1.0.3", data := exData1, timestamp := "t3" },
              { ip := "10.1.0.2", data := exData1, timestamp := "t2" },
              { ip := "10.1.0.1", data := exData1, timestamp := "t1" }] : List HistoryEntry).length = 5
         then ([{ ip := "10.1.0.5", data := exData1, timestamp := "t5" },
                { ip := "10.1.0.4", data := exData1, timestamp := "t4" },
                { ip := "10.1.0.3", data := exData1, timestamp := "t3" },
                { ip := "10.1.0.2", data := exData1, timestamp := "t2" },
                { ip := "10.1.0.1", data := exData1, timestamp := "t1" }] : List HistoryEntry).dropLast
         else [{ ip := "10.1.0.5", data := exData1, timestamp := "t5" },
               { ip := "10.1.0.4", data := exData1, timestamp := "t4" },
               { ip := "10.1.0.3", data := exData1, timestamp := "t3" },
               { ip := "10.1.0.2", data := exData1, timestamp := "t2" },
               { ip := "10.1.0.1", data := exData1, timestamp := "t1" }]) ∧
    (updateHistory "10.0.0.6" exData1 "t6"
        (updateHistory "10.0.0.5" exData1 "t5"
          (updateHistory "10.0.0.4" exData1 "t4"
            (updateHistory "10.0.0.3" exData1 "t3"
              (updateHistory "10.0.0.2" exData1 "t2"
                (updateHistory "10.0.0.1" exData1 "t1" ⟨[], none⟩)))))).ipHistory =
      [{ ip := "10.0.0.6", data := exData1, timestamp := "t6" },
       { ip := "10.0.0.5", data := exData1, timestamp := "t5" },
       { ip := "10.0.0.4", data := exData1, timestamp := "t4" },
       { ip := "10.0.0.3", data := exData1, timestamp := "t3" },
       { ip := "10.0.0.2", data := exData1, timestamp := "t2" }] :=
  claim_C5 "10.1.0.6" exData1 "t6"
    ⟨[{ ip := "10.1.0.5", data := exData1, timestamp := "t5" },
      { ip := "10.1.0.4", data := exData1, timestamp := "t4" },
      { ip := "10.1.0.3", data := exData1, timestamp := "t3" },
      { ip := "10.1.0.2", data := exData1, timestamp := "t2" },
      { ip := "10.1.0.1", data := exData1, timestamp := "t1" }], some "10.1.0.5"⟩
    (by decide) (by decide)

/-! ## Claim C4: resolution failure is contained -/

/-- Claim C4: whatever the address, whenever the lookup suffers a transport
failure (`onerror`), a malformed response (`JSON.parse` throws), or carries
an explicit `error` field, `resolve(address)` resolves to `null` — no
exception reaches the caller, every such branch being a caught
`resolve(null)` — and the ledger (both the history and
`lastReportedIP`) is left exactly as it was. -/
theorem claim_C4 (regionName : String → String) (gmAvailable : Bool) (ts ip : String)
    (st : GeoState) :
    getGeolocation regionName gmAvailable ts ip LookupOutcome.transportError st = (none, st) ∧
    getGeolocation regionName gmAvailable ts ip LookupOutcome.malformed st = (none, st) ∧
    ∀ (json : IpinfoJson) (msg : String),
      getGeolocation regionName gmAvailable ts ip
        (LookupOutcome.parsed { json with error := some msg }) st = (none, st) := by
  refine ⟨?_, ?_, ?_⟩
  · unfold getGeolocation
    by_cases h1 : ip = "" <;> cases gmAvailable <;> simp [h1]
  · unfold getGeolocation
    by_cases h1 : ip = "" <;> cases gmAvailable <;> simp [h1]
  · intro json msg
    unfold getGeolocation
    by_cases h1 : ip = "" <;> cases gmAvailable <;> simp [h1]

/-! ## Claim C9: persisted state round-trip and degraded mode -/

/-- Claim C9: with an available, non-raising backend, `set(k, v)` followed
by `get(k, d)` returns `v`; when the backend raises, `get(k, d)` returns the
default and `set(k, v)` leaves the backend untouched.  Both operations are
total — the `try/catch` in the source means no exception escapes either. -/
theorem claim_C9 {V : Type} (f : String → Option V) (k : String) (v d : V) (avail : Bool) :
    getStoredValue (setStoredValue (Backend.mk true false f) k v) k d = v ∧
    getStoredValue (Backend.mk avail true f) k d = d ∧
    setStoredValue (Backend.mk avail true f) k v = Backend.mk avail true f := by
  refine ⟨?_, ?_, ?_⟩
  · simp [getStoredValue, setStoredValue]
  · cases avail <;> simp [getStoredValue]
  · cases avail <;> simp [setStoredValue]

/-! ## Claim C6: the NoveltyFilter admission test -/

/-- Claim C6: `admit(address)` (the test-and-add of lines 529-534) returns
`true` iff the address differs from the previously reported one and is not
in the session novelty set; on `true` the address is added to the session
set, so admitting the same address a second time within the session returns
`false`. -/
theorem claim_C6 (ip : String) (ss : SessionState) :
    ((acceptCandidate ip ss).1 = true ↔
      (ss.geo.lastReportedIP ≠ some ip ∧ ip ∉ ss.detectedIps)) ∧
    ((acceptCandidate ip ss).1 = true →
      (acceptCandidate ip ss).2.detectedIps = ip :: ss.detectedIps) ∧
    ((acceptCandidate ip ss).1 = true →
      (acceptCandidate ip (acceptCandidate ip ss).2).1 = false) := by
  unfold acceptCandidate
  by_cases hc : ss.geo.lastReportedIP ≠ some ip ∧ ip ∉ ss.detectedIps
  · rw [if_pos hc]
    refine ⟨by simp [hc], fun _ => rfl, fun _ => ?_⟩
    dsimp only
    rw [if_neg]
    intro h2
    exact h2.2 (List.mem_cons_self ip ss.detectedIps)
  · rw [if_neg hc]
    exact ⟨by simp [hc], by simp, by simp⟩

/-- Witness for `claim_C6` on a fresh session state: the hypotheses of its
second and third conjuncts hold there, so the address lands in the session
set and a second admission returns `false`. -/
theorem claim_C6_witness :
    (acceptCandidate "198.51.100.9" ⟨[], ⟨[], none⟩⟩).2.detectedIps =
        "198.51.100.9" :: (⟨[], ⟨[], none⟩⟩ : SessionState).detectedIps ∧
    (acceptCandidate "198.51.100.9"
        (acceptCandidate "198.51.100.9" ⟨[], ⟨[], none⟩⟩).2).1 = false :=
  ⟨(claim_C6 "198.51.100.9" ⟨[], ⟨[], none⟩⟩).2.1 (by decide),
   (claim_C6 "198.51.100.9" ⟨[], ⟨[], none⟩⟩).2.2 (by decide)⟩

/-! ## Claim C2: failed resolution and re-admission -/

/-- Claim C2, counterexample: on a fresh session, address `9.9.9.9` is
admitted; its resolution fails (transport error), which indeed leaves the
ledger — in particular `lastReportedIP` — untouched; but a second candidate
event carrying the very same address within the same session is *not*
admitted again: the address was added to the session novelty set at
admission time (line 533), before the resolution was even started, so the
`!self.detectedIps.has(ip)` test now fails.  This refutes "the same address
can be admitted again on the next candidate event within the same
session". -/
theorem claim_C2_counterexample :
    (acceptCandidate "9.9.9.9" ⟨[], ⟨[], none⟩⟩).1 = true ∧
    getGeolocation (fun c => c) true "t1" "9.9.9.9" LookupOutcome.transportError
        (acceptCandidate "9.9.9.9" ⟨[], ⟨[], none⟩⟩).2.geo =
      (none, (acceptCandidate "9.9.9.9" ⟨[], ⟨[], none⟩⟩).2.geo) ∧
    (acceptCandidate "9.9.9.9" (acceptCandidate "9.9.9.9" ⟨[], ⟨[], none⟩⟩).2).1 = false := by
  refine ⟨by decide, ?_, by decide⟩
  rfl

/-- Claim C2, amended: for every admitted address whose resolution fails,
`lastReportedIP` keeps its previous value (it is refreshed only on
resolution success, inside `updateHistory`); however the same address can
*not* be admitted again on a later candidate event within the same session —
admission already added it to the session novelty set, so the second
admission test returns `false` whatever the resolution outcome was. -/
theorem claim_C2_amended (ip ts : String) (regionName : String → String)
    (ss : SessionState) :
    ((acceptCandidate ip ss).2.geo.lastReportedIP = ss.geo.lastReportedIP) ∧
    ((getGeolocation regionName true ts ip LookupOutcome.transportError
        (acceptCandidate ip ss).2.geo).2.lastReportedIP = ss.geo.lastReportedIP) ∧
    (acceptCandidate ip
      { (acceptCandidate ip ss).2 with
        geo := (getGeolocation regionName true ts ip LookupOutcome.transportError
          (acceptCandidate ip ss).2.geo).2 }).1 = false := by
  have hgeo : (acceptCandidate ip ss).2.geo = ss.geo := by
    unfold acceptCandidate
    by_cases hc : ss.geo.lastReportedIP ≠ some ip ∧ ip ∉ ss.detectedIps
    · rw [if_pos hc]
    · rw [if_neg hc]
  have hfail : (getGeolocation regionName true ts ip LookupOutcome.transportError
      (acceptCandidate ip ss).2.geo).2 = (acceptCandidate ip ss).2.geo := by
    unfold getGeolocation
    by_cases h1 : ip = "" <;> simp [h1]
  refine ⟨by rw [hgeo], by rw [hfail, hgeo], ?_⟩
  rw [hfail]
  unfold acceptCandidate
  by_cases hc : ss.geo.lastReportedIP ≠ some ip ∧ ip ∉ ss.detectedIps
  · rw [if_pos hc]
    dsimp only
    rw [if_neg]
    intro h2
    exact h2.2 (List.mem_cons_self ip ss.detectedIps)
  · rw [if_neg hc]
    dsimp only
    rw [if_neg]
    intro h2
    exact hc h2

/-! ## Claim C8: the hook is transparent to the connection -/

/-- Claim C8: for every invocation of the patched `addIceCandidate` — with
an arbitrary detection body, in particular one that throws (`detect`
returning `some e`) — the original `addIceCandidate` is invoked exactly once
(the call log is `[ice]`), with the original argument, and its result is the
hook's return value; the error, if any, raised by the detection body is
swallowed by the `catch` and never propagates. -/
theorem claim_C8 {ι σ ε ρ : Type} (detect : ι → σ → σ × Option ε) (origAdd : ι → ρ)
    (ice : ι) (s : σ) :
    (hookedAddIceCandidate detect origAdd ice s).1 = origAdd ice ∧
    (hookedAddIceCandidate detect origAdd ice s).2.2 = [ice] :=
  ⟨rfl, rfl⟩

/-! ## CandidateClassifier (lines 519-526)

The hook reads `const cand = ice.candidate || ''` and applies two JavaScript
regular expressions:

* `typeMatch = cand.match(/typ\s(srflx)/)` — the string contains `typ`, one
  whitespace character (`\s`), then `srflx`;
* `ipMatch = cand.match(/([0-9]{1,3}(?:\.[0-9]{1,3}){3})/)` — the leftmost
  (earliest-starting) substring consisting of four runs of one to three
  ASCII digits separated by dots, each quantifier greedy with backtracking;
  `ipMatch[1]` is that whole substring.

Both are embedded below over `List Char`, reproducing JavaScript's
leftmost-match, greedy-with-backtracking semantics for these two concrete
patterns. -/

/-- JavaScript's `\s` character class (ECMA-262 WhiteSpace ∪ LineTerminator). -/
def isWsChar (c : Char) : Bool :=
  c == ' ' || c == '\t' || c == '\n' || c == '\r' || c == '\u000B' || c == '\u000C' ||
  c == ' ' || c == ' ' ||
  (decide (0x2000 ≤ c.toNat) && decide (c.toNat ≤ 0x200A)) ||
  c == ' ' || c == ' ' || c == ' ' || c == ' ' ||
  c == '　' || c == '﻿'

/-- Does `/typ\s(srflx)/` match at the very start of the character list? -/
def markerAt : List Char → Bool
  | a :: b :: c :: w :: d :: e :: f :: g :: x :: _ =>
    a == 't' && b == 'y' && c == 'p' && isWsChar w &&
    d == 's' && e == 'r' && f == 'f' && g == 'l' && x == 'x'
  | _ => false

/-- Does `/typ\s(srflx)/` match anywhere in the character list (the
`cand.match(...) !== null` test)? -/
def hasMarker : List Char → Bool
  | [] => false
  | c :: cs => markerAt (c :: cs) || hasMarker cs

/-- The nine characters `typ`, one whitespace character, `srflx`. -/
def srflxMarker (w : Char) : List Char :=
  ['t', 'y', 'p', w, 's', 'r', 'f', 'l', 'x']

/-- Spec-side reading of "contains a server-reflexive type marker": some
occurrence of `typ` + whitespace + `srflx` appears in the record. -/
def HasSrflxMarker (cs : List Char) : Prop :=
  ∃ p w post, isWsChar w = true ∧ cs = p ++ srflxMarker w ++ post

theorem markerAt_cons9 (a b c w d e f g x : Char) (rest : List Char) :
    markerAt (a :: b :: c :: w :: d :: e :: f :: g :: x :: rest) =
      (a == 't' && b == 'y' && c == 'p' && isWsChar w &&
       d == 's' && e == 'r' && f == 'f' && g == 'l' && x == 'x') := rfl

theorem markerAt_iff (cs : List Char) :
    markerAt cs = true ↔ ∃ w post, isWsChar w = true ∧ cs = srflxMarker w ++ post := by
  constructor
  · intro h
    unfold markerAt at h
    split at h
    · next a b c w d e f g x rest =>
      simp only [Bool.and_eq_true, beq_iff_eq] at h
      obtain ⟨⟨⟨⟨⟨⟨⟨⟨ha, hb⟩, hc⟩, hw⟩, hd⟩, he⟩, hf⟩, hg⟩, hx⟩ := h
      subst ha; subst hb; subst hc; subst hd; subst he; subst hf; subst hg; subst hx
      exact ⟨w, rest, hw, rfl⟩
    · exact absurd h (by simp)
  · rintro ⟨w, post, hw, rfl⟩
    simp [srflxMarker, markerAt_cons9, hw]

theorem hasMarker_iff (cs : List Char) : hasMarker cs = true ↔ HasSrflxMarker cs := by
  induction cs with
  | nil =>
    constructor
    · intro h; simp [hasMarker] at h
    · rintro ⟨p, w, post, -, heq⟩
      have hlen := congrArg List.length heq
      simp only [srflxMarker, List.length_nil, List.length_append, List.length_cons] at hlen
      omega
  | cons c cs ih =>
    simp only [hasMarker, Bool.or_eq_true]
    constructor
    · intro h
      rcases h with h | h
      · obtain ⟨w, post, hw, heq⟩ := (markerAt_iff _).mp h
        exact ⟨[], w, post, hw, by simpa using heq⟩
      · obtain ⟨p, w, post, hw, heq⟩ := ih.mp h
        exact ⟨c :: p, w, post, hw, by simp [heq]⟩
    · rintro ⟨p, w, post, hw, heq⟩
      cases p with
      | nil =>
        left
        exact (markerAt_iff _).mpr ⟨w, post, hw, by simpa using heq⟩
      | cons p0 ptail =>
        right
        simp only [List.cons_append, List.cons.injEq] at heq
        exact ih.mpr ⟨ptail, w, post, hw, heq.2⟩

/-! ### The IPv4-shape matcher `([0-9]{1,3}(?:\.[0-9]{1,3}){3})`

`takeExactDigits k` consumes exactly `k` ASCII digits; `tryGroup` realises
the greedy quantifier `[0-9]{1,3}` with backtracking — it attempts three
digits first, then two, then one, each time running the continuation on the
remainder; `dotGroup` consumes a literal `.` followed by a group; the
returned list is the matched text.  `matchQuadAt` is the whole pattern
anchored at the current position; `findQuad` scans positions left to right
and returns the leftmost match, exactly as `String.prototype.match` does. -/

def takeExactDigits : Nat → List Char → Option (List Char × List Char)
  | 0, cs => some ([], cs)
  | _ + 1, [] => none
  | n + 1, c :: cs =>
    if c.isDigit then
      match takeExactDigits n cs with
      | some (d, r) => some (c :: d, r)
      | none => none
    else none

/-- Attempt a digit group of exactly `k` digits, then the continuation. -/
def tryK (k : Nat) (cont : List Char → Option (List Char)) (cs : List Char) :
    Option (List Char) :=
  match takeExactDigits k cs with
  | some (d, r) =>
    match cont r with
    | some m => some (d ++ m)
    | none => none
  | none => none

/-- Greedy `[0-9]{1,3}` with backtracking: longest group first. -/
def tryGroup (cont : List Char → Option (List Char)) (cs : List Char) :
    Option (List Char) :=
  match tryK 3 cont cs with
  | some m => some m
  | none =>
    match tryK 2 cont cs with
    | some m => some m
    | none => tryK 1 cont cs

/-- A literal `.` followed by a greedy digit group. -/
def dotGroup (cont : List Char → Option (List Char)) : List Char → Option (List Char)
  | [] => none
  | c :: r =>
    if c = '.' then
      match tryGroup cont r with
      | some m => some ('.' :: m)
      | none => none
    else none

/-- The full pattern `[0-9]{1,3}(\.[0-9]{1,3}){3}` anchored at the head. -/
def matchQuadAt : List Char → Option (List Char) :=
  tryGroup (dotGroup (dotGroup (dotGroup (fun _ => some []))))

/-- Leftmost match of the pattern anywhere in the list (`cand.match(...)`,
whose group 1 — the whole match — becomes `ipMatch[1]`, line 526). -/
def findQuad : List Char → Option (List Char)
  | [] => none
  | c :: cs =>
    match matchQuadAt (c :: cs) with
    | some m => some m
    | none => findQuad cs

/-- A run of one to three ASCII digits. -/
def IsDigitGroup (d : List Char) : Prop :=
  d ≠ [] ∧ d.length ≤ 3 ∧ ∀ c ∈ d, c.isDigit = true

/-- Spec-side reading of a "dotted-quad IPv4-shaped token": four 1-to-3
digit groups separated by dots (no range check on the groups). -/
def IsQuad (q : List Char) : Prop :=
  ∃ g1 g2 g3 g4, IsDigitGroup g1 ∧ IsDigitGroup g2 ∧ IsDigitGroup g3 ∧ IsDigitGroup g4 ∧
    q = g1 ++ '.' :: (g2 ++ '.' :: (g3 ++ '.' :: g4))

/-- Spec-side reading of "contains a dotted-quad IPv4-shaped token". -/
def ContainsQuad (cs : List Char) : Prop :=
  ∃ p q post, IsQuad q ∧ cs = p ++ q ++ post

/-- A continuation is sound for postcondition `Q` when every successful run
consumed a prefix equal to its returned match, that match satisfying `Q`. -/
def ContSpec (cont : List Char → Option (List Char)) (Q : List Char → Prop) : Prop :=
  ∀ r m, cont r = some m → ∃ r2, r = m ++ r2 ∧ Q m

theorem takeExactDigits_sound :
    ∀ {k : Nat} {cs d r : List Char}, takeExactDigits k cs = some (d, r) →
      cs = d ++ r ∧ d.length = k ∧ ∀ c ∈ d, c.isDigit = true := by
  intro k
  induction k with
  | zero =>
    intro cs d r h
    simp only [takeExactDigits, Option.some.injEq, Prod.mk.injEq] at h
    obtain ⟨h1, h2⟩ := h
    subst h1; subst h2
    simp
  | succ n ih =>
    intro cs d r h
    cases cs with
    | nil => simp [takeExactDigits] at h
    | cons c cs2 =>
      simp only [takeExactDigits] at h
      by_cases hc : c.isDigit
      · rw [if_pos hc] at h
        cases ht : takeExactDigits n cs2 with
        | none => rw [ht] at h; simp at h
        | some pr =>
          obtain ⟨d2, r2⟩ := pr
          rw [ht] at h
          simp only [Option.some.injEq, Prod.mk.injEq] at h
          obtain ⟨h1, h2⟩ := h
          subst h1; subst h2
          obtain ⟨hcs, hlen, hdig⟩ := ih ht
          subst hcs
          refine ⟨rfl, by simp [hlen], ?_⟩
          intro y hy
          rcases List.mem_cons.mp hy with h1 | h1
          · subst h1; exact hc
          · exact hdig y h1
      · rw [if_neg hc] at h; simp at h

theorem takeExactDigits_complete :
    ∀ {d : List Char} (r : List Char), (∀ c ∈ d, c.isDigit = true) →
      takeExactDigits d.length (d ++ r) = some (d, r) := by
  intro d
  induction d with
  | nil => intro r _; rfl
  | cons c d2 ih =>
    intro r hdig
    have hc : c.isDigit = true := hdig c (List.mem_cons_self c d2)
    have hrec := ih r (fun x hx => hdig x (List.mem_cons_of_mem c hx))
    simp [List.cons_append, takeExactDigits, hc, hrec]

theorem tryK_sound {k : Nat} {cont : List Char → Option (List Char)} {Q : List Char → Prop}
    (hcont : ContSpec cont Q) {cs m : List Char} (h : tryK k cont cs = some m) :
    ∃ d m2 r2, m = d ++ m2 ∧ cs = d ++ m2 ++ r2 ∧ d.length = k ∧
      (∀ c ∈ d, c.isDigit = true) ∧ Q m2 := by
  unfold tryK at h
  cases ht : takeExactDigits k cs with
  | none => simp only [ht] at h; exact Option.noConfusion h
  | some pr =>
    obtain ⟨d, r⟩ := pr
    simp only [ht] at h
    cases hcr : cont r with
    | none => simp only [hcr] at h; exact Option.noConfusion h
    | some m2 =>
      simp only [hcr, Option.some.injEq] at h
      subst h
      obtain ⟨hcs, hlen, hdig⟩ := takeExactDigits_sound ht
      obtain ⟨r2, hr, hQ⟩ := hcont r m2 hcr
      refine ⟨d, m2, r2, rfl, ?_, hlen, hdig, hQ⟩
      rw [hcs, hr, List.append_assoc]

theorem tryGroup_sound {cont : List Char → Option (List Char)} {Q : List Char → Prop}
    (hcont : ContSpec cont Q) :
    ContSpec (tryGroup cont) (fun m => ∃ d m2, IsDigitGroup d ∧ Q m2 ∧ m = d ++ m2) := by
  intro cs m h
  unfold tryGroup at h
  have useK : ∀ k, 1 ≤ k → k ≤ 3 → tryK k cont cs = some m →
      ∃ r2, cs = m ++ r2 ∧ ∃ d m2, IsDigitGroup d ∧ Q m2 ∧ m = d ++ m2 := by
    intro k hk1 hk3 hK
    obtain ⟨d, m2, r2, hm, hcs, hlen, hdig, hQ⟩ := tryK_sound hcont hK
    refine ⟨r2, by rw [hcs, hm, List.append_assoc], d, m2, ?_, hQ, hm⟩
    refine ⟨?_, by omega, hdig⟩
    intro hnil
    rw [hnil] at hlen
    simp at hlen
    omega
  cases h3 : tryK 3 cont cs with
  | some m3 =>
    rw [h3] at h
    simp only [Option.some.injEq] at h
    subst h
    exact useK 3 (by omega) (by omega) h3
  | none =>
    rw [h3] at h
    cases h2 : tryK 2 cont cs with
    | some m2 =>
      rw [h2] at h
      simp only [Option.some.injEq] at h
      subst h
      exact useK 2 (by omega) (by omega) h2
    | none =>
      rw [h2] at h
      exact useK 1 (by omega) (by omega) h

theorem dotGroup_sound {cont : List Char → Option (List Char)} {Q : List Char → Prop}
    (hcont : ContSpec cont Q) :
    ContSpec (dotGroup cont)
      (fun m => ∃ d m2, IsDigitGroup d ∧ Q m2 ∧ m = '.' :: (d ++ m2)) := by
  intro cs m h
  cases cs with
  | nil => simp [dotGroup] at h
  | cons c r =>
    simp only [dotGroup] at h
    by_cases hdot : c = '.'
    · rw [if_pos hdot] at h
      cases hg : tryGroup cont r with
      | none => rw [hg] at h; simp at h
      | some mg =>
        rw [hg] at h
        simp only [Option.some.injEq] at h
        subst h
        obtain ⟨r2, hr, d, m2, hd, hQ, hm⟩ := tryGroup_sound hcont r mg hg
        subst hdot
        refine ⟨r2, ?_, d, m2, hd, hQ, by rw [hm]⟩
        rw [hr, hm]
        simp
    · rw [if_neg hdot] at h; simp at h

theorem matchQuadAt_sound : ContSpec matchQuadAt IsQuad := by
  have h0 : ContSpec (fun _ => some []) (fun m => m = []) := by
    intro r m h
    simp only [Option.some.injEq] at h
    subst h
    exact ⟨r, by simp, rfl⟩
  have hs := tryGroup_sound (dotGroup_sound (dotGroup_sound (dotGroup_sound h0)))
  intro r m h
  obtain ⟨r2, hr, hQ⟩ := hs r m h
  refine ⟨r2, hr, ?_⟩
  obtain ⟨g1, m2, hg1, hQ2, hm⟩ := hQ
  obtain ⟨g2, m3, hg2, hQ3, hm2⟩ := hQ2
  obtain ⟨g3, m4, hg3, hQ4, hm3⟩ := hQ3
  obtain ⟨g4, m5, hg4, hm5, hm4⟩ := hQ4
  subst hm5
  refine ⟨g1, g2, g3, g4, hg1, hg2, hg3, hg4, ?_⟩
  subst hm4; subst hm3; subst hm2; subst hm
  simp

theorem findQuad_sound :
    ∀ {cs m : List Char}, findQuad cs = some m →
      ∃ p r2, cs = p ++ m ++ r2 ∧ IsQuad m := by
  intro cs
  induction cs with
  | nil => intro m h; simp [findQuad] at h
  | cons c cs2 ih =>
    intro m h
    simp only [findQuad] at h
    cases hm : matchQuadAt (c :: cs2) with
    | some m2 =>
      rw [hm] at h
      simp only [Option.some.injEq] at h
      subst h
      obtain ⟨r2, hr, hq⟩ := matchQuadAt_sound _ _ hm
      exact ⟨[], r2, by simpa using hr, hq⟩
    | none =>
      rw [hm] at h
      obtain ⟨p, r2, hdec, hq⟩ := ih h
      exact ⟨c :: p, r2, by simp [hdec], hq⟩

theorem tryK_complete {d r m : List Char} {cont : List Char → Option (List Char)}
    (hdig : ∀ c ∈ d, c.isDigit = true) (hcr : cont r = some m) :
    tryK d.length cont (d ++ r) = some (d ++ m) := by
  unfold tryK
  rw [takeExactDigits_complete r hdig]
  simp [hcr]

theorem tryGroup_complete {d r m : List Char} {cont : List Char → Option (List Char)}
    (hd : IsDigitGroup d) (hcr : cont r = some m) :
    (tryGroup cont (d ++ r)).isSome = true := by
  obtain ⟨hne, hle, hdig⟩ := hd
  have hlen1 : 1 ≤ d.length := List.length_pos.mpr hne
  have hcomp := tryK_complete hdig hcr
  cases h3 : tryK 3 cont (d ++ r) with
  | some m3 => simp [tryGroup, h3]
  | none =>
    cases h2 : tryK 2 cont (d ++ r) with
    | some m2 => simp [tryGroup, h3, h2]
    | none =>
      have hcase : d.length = 1 ∨ d.length = 2 ∨ d.length = 3 := by omega
      rcases hcase with hc | hc | hc
      · rw [hc] at hcomp
        simp [tryGroup, h3, h2, hcomp]
      · rw [hc] at hcomp
        rw [hcomp] at h2
        exact Option.noConfusion h2
      · rw [hc] at hcomp
        rw [hcomp] at h3
        exact Option.noConfusion h3

theorem dotGroup_complete {r : List Char} {cont : List Char → Option (List Char)}
    (h : (tryGroup cont r).isSome = true) :
    (dotGroup cont ('.' :: r)).isSome = true := by
  obtain ⟨m, hm⟩ := Option.isSome_iff_exists.mp h
  simp [dotGroup, hm]

theorem matchQuadAt_complete {q : List Char} (post : List Char) (hq : IsQuad q) :
    (matchQuadAt (q ++ post)).isSome = true := by
  obtain ⟨g1, g2, g3, g4, hg1, hg2, hg3, hg4, hdec⟩ := hq
  have h4 : (tryGroup (fun _ => some ([] : List Char)) (g4 ++ post)).isSome = true :=
    tryGroup_complete hg4 rfl
  obtain ⟨m4, hm4⟩ := Option.isSome_iff_exists.mp (dotGroup_complete h4)
  have h3 : (tryGroup (dotGroup (fun _ => some [])) (g3 ++ '.' :: (g4 ++ post))).isSome = true :=
    tryGroup_complete hg3 hm4
  obtain ⟨m3, hm3⟩ := Option.isSome_iff_exists.mp (dotGroup_complete h3)
  have h2 : (tryGroup (dotGroup (dotGroup (fun _ => some [])))
      (g2 ++ '.' :: (g3 ++ '.' :: (g4 ++ post)))).isSome = true :=
    tryGroup_complete hg2 hm3
  obtain ⟨m2, hm2⟩ := Option.isSome_iff_exists.mp (dotGroup_complete h2)
  have h1 : (tryGroup (dotGroup (dotGroup (dotGroup (fun _ => some []))))
      (g1 ++ '.' :: (g2 ++ '.' :: (g3 ++ '.' :: (g4 ++ post))))).isSome = true :=
    tryGroup_complete hg1 hm2
  have harg : q ++ post = g1 ++ '.' :: (g2 ++ '.' :: (g3 ++ '.' :: (g4 ++ post))) := by
    rw [hdec]
    simp
  rw [matchQuadAt, harg]
  exact h1

theorem findQuad_complete :
    ∀ {p : List Char} (q post : List Char), IsQuad q →
      (findQuad (p ++ q ++ post)).isSome = true := by
  intro p
  induction p with
  | nil =>
    intro q post hq
    obtain ⟨m, hm⟩ := Option.isSome_iff_exists.mp (matchQuadAt_complete post hq)
    obtain ⟨g1, g2, g3, g4, hg1, hg2, hg3, hg4, hdec⟩ := hq
    cases hg : g1 with
    | nil => exact absurd hg hg1.1
    | cons a g1t =>
      have hshape : q ++ post =
          a :: (g1t ++ '.' :: (g2 ++ '.' :: (g3 ++ '.' :: (g4 ++ post)))) := by
        rw [hdec, hg]
        simp
      rw [List.nil_append]
      rw [hshape] at hm ⊢
      simp [findQuad, hm]
  | cons c p2 ih =>
    intro q post hq
    have hrest := ih q post hq
    have hshape : (c :: p2) ++ q ++ post = c :: (p2 ++ q ++ post) := by simp
    rw [hshape]
    simp only [findQuad]
    cases hm : matchQuadAt (c :: (p2 ++ q ++ post)) with
    | some m => simp
    | none => simpa using hrest

theorem findQuad_isSome_iff (cs : List Char) :
    (findQuad cs).isSome = true ↔ ContainsQuad cs := by
  constructor
  · intro h
    obtain ⟨m, hm⟩ := Option.isSome_iff_exists.mp h
    obtain ⟨p, r2, hdec, hq⟩ := findQuad_sound hm
    exact ⟨p, m, r2, hq, hdec⟩
  · rintro ⟨p, q, post, hq, rfl⟩
    exact findQuad_complete q post hq

/-! ## `classify`: the candidate classification of lines 519-526 -/

/-- The candidate class of the spec's `ExtractedCandidate`. -/
inductive CandClass where
  | serverReflexive
  | other
deriving DecidableEq, Repr

/-- The spec's `ExtractedCandidate`: candidate class plus extracted address. -/
structure ExtractedCandidate where
  cls : CandClass
  address : Option String
deriving DecidableEq, Repr

/-- The classification performed by lines 520-526: the record is actionable
(`typeMatch && ipMatch`) iff the `typ\s(srflx)` marker matches and the IPv4
pattern matches; the address is `ipMatch[1]`, the leftmost IPv4-shaped
token.  Total — a record matching neither pattern is simply
"not applicable". -/
def classify (cand : String) : ExtractedCandidate :=
  if hasMarker cand.data then
    match findQuad cand.data with
    | some ipChars => { cls := CandClass.serverReflexive, address := some (String.mk ipChars) }
    | none => { cls := CandClass.other, address := none }
  else { cls := CandClass.other, address := none }

/-- Claim C7: `classify` yields an actionable (server-reflexive) result iff
the record contains the server-reflexive type marker and a dotted-quad
IPv4-shaped token; non-actionable records carry no address (`classify`
never fails — it is total); and the record
`"a typ srflx b 203.0.113.7 c"` classifies as server-reflexive with
address `203.0.113.7`, the first such token. -/
theorem claim_C7 :
    (∀ cand : String,
      (classify cand).cls = CandClass.serverReflexive ↔
        (HasSrflxMarker cand.data ∧ ContainsQuad cand.data)) ∧
    (∀ cand : String,
      (classify cand).cls = CandClass.other → (classify cand).address = none) ∧
    classify "a typ srflx b 203.0.113.7 c" =
      { cls := CandClass.serverReflexive, address := some "203.0.113.7" } := by
  refine ⟨?_, ?_, by decide⟩
  · intro cand
    unfold classify
    by_cases hm : hasMarker cand.data
    · rw [if_pos hm]
      cases hf : findQuad cand.data with
      | some m =>
        simp only []
        constructor
        · intro _
          refine ⟨(hasMarker_iff _).mp hm, (findQuad_isSome_iff _).mp ?_⟩
          rw [hf]
          rfl
        · intro _
          trivial
      | none =>
        constructor
        · intro hcls
          exact absurd hcls (by simp)
        · rintro ⟨-, hq⟩
          have hsome := (findQuad_isSome_iff _).mpr hq
          rw [hf] at hsome
          exact Bool.noConfusion hsome
    · rw [if_neg hm]
      constructor
      · intro hcls
        exact absurd hcls (by simp)
      · rintro ⟨hmk, -⟩
        exact absurd ((hasMarker_iff _).mpr hmk) hm
  · intro cand
    unfold classify
    by_cases hm : hasMarker cand.data
    · rw [if_pos hm]
      cases hf : findQuad cand.data with
      | some m =>
        intro hcls
        exact absurd hcls (by simp)
      | none => intro _; rfl
    · rw [if_neg hm]
      intro _
      rfl

/-- Witness for `claim_C7` (its second conjunct carries a hypothesis): a
host-type record is classified non-actionable and carries no address. -/
theorem claim_C7_witness :
    (classify "typ host 10.0.0.2").address = none :=
  claim_C7.2.1 "typ host 10.0.0.2" (by decide)

/-- Claim C10: the IPv4-shape check does not range-check the octets — every
placement of four 1-to-3-digit groups separated by dots is accepted by the
token matcher, and concretely the record `"typ srflx 999.999.999.999"`,
whose groups all exceed 255, is classified actionable with address
`999.999.999.999`. -/
theorem claim_C10 (g1 g2 g3 g4 p post : List Char)
    (h1 : IsDigitGroup g1) (h2 : IsDigitGroup g2) (h3 : IsDigitGroup g3)
    (h4 : IsDigitGroup g4) :
    (findQuad (p ++ (g1 ++ '.' :: (g2 ++ '.' :: (g3 ++ '.' :: g4))) ++ post)).isSome = true ∧
    classify "typ srflx 999.999.999.999" =
      { cls := CandClass.serverReflexive, address := some "999.999.999.999" } := by
  exact ⟨findQuad_complete _ _ ⟨g1, g2, g3, g4, h1, h2, h3, h4, rfl⟩, by decide⟩

/-- The group `999` is a 1-to-3-digit run. -/
theorem isDigitGroup_999 : IsDigitGroup ['9', '9', '9'] :=
  ⟨by simp, by simp, by decide⟩

/-- Witness for `claim_C10` at the all-nines groups. -/
theorem claim_C10_witness :
    (findQuad (([] : List Char) ++
        (['9', '9', '9'] ++ '.' :: (['9', '9', '9'] ++ '.' ::
          (['9', '9', '9'] ++ '.' :: ['9', '9', '9']))) ++ [])).isSome = true ∧
    classify "typ srflx 999.999.999.999" =
      { cls := CandClass.serverReflexive, address := some "999.999.999.999" } :=
  claim_C10 ['9', '9', '9'] ['9', '9', '9'] ['9', '9', '9'] ['9', '9', '9'] [] []
    isDigitGroup_999 isDigitGroup_999 isDigitGroup_999 isDigitGroup_999
